import Mathlib

/-!
Verification of the question-ID standardization and deduplication pass
(`docs/architecture/standardize-question-ids.py`).

The script is embedded shallowly: JSON values become the inductive `JValue`,
parsed dictionaries become association lists (JSON objects have unique keys,
and Python dict assignment updates a present key in place or appends a new
one), per-file processing becomes a pure function on file contents, and a
Python exception raised while a file is being processed becomes the `.error`
branch of `Except` (the script catches it per file, leaving the file's
on-disk content untouched).  Python string lowering is modelled per
character on the ASCII range, and `f"{n:03d}"` becomes `pad3`.
-/

namespace StandardizeIds

/-- A JSON value, as produced by `json.load`.  Numeric payloads are modelled
as integers; none of the verified behaviour inspects numbers other than for
Python truthiness. -/
inductive JValue where
  | null : JValue
  | bool : Bool → JValue
  | num : Int → JValue
  | str : String → JValue
  | arr : List JValue → JValue
  | obj : List (String × JValue) → JValue
mutual

/-- Decidable equality for `JValue` (the derive handler does not support this
nested inductive). -/
def decEqJ : (a b : JValue) → Decidable (a = b)
  | .null, .null => isTrue rfl
  | .bool a, .bool b =>
    if h : a = b then isTrue (by rw [h]) else isFalse (fun hh => h (by cases hh; rfl))
  | .num a, .num b =>
    if h : a = b then isTrue (by rw [h]) else isFalse (fun hh => h (by cases hh; rfl))
  | .str a, .str b =>
    if h : a = b then isTrue (by rw [h]) else isFalse (fun hh => h (by cases hh; rfl))
  | .arr xs, .arr ys =>
    match decEqListJ xs ys with
    | isTrue h => isTrue (by rw [h])
    | isFalse h => isFalse (fun hh => h (by cases hh; rfl))
  | .obj xs, .obj ys =>
    match decEqObjJ xs ys with
    | isTrue h => isTrue (by rw [h])
    | isFalse h => isFalse (fun hh => h (by cases hh; rfl))
  | .null, .bool _ => isFalse nofun
  | .null, .num _ => isFalse nofun
  | .null, .str _ => isFalse nofun
  | .null, .arr _ => isFalse nofun
  | .null, .obj _ => isFalse nofun
  | .bool _, .null => isFalse nofun
  | .bool _, .num _ => isFalse nofun
  | .bool _, .str _ => isFalse nofun
  | .bool _, .arr _ => isFalse nofun
  | .bool _, .obj _ => isFalse nofun
  | .num _, .null => isFalse nofun
  | .num _, .bool _ => isFalse nofun
  | .num _, .str _ => isFalse nofun
  | .num _, .arr _ => isFalse nofun
  | .num _, .obj _ => isFalse nofun
  | .str _, .null => isFalse nofun
  | .str _, .bool _ => isFalse nofun
  | .str _, .num _ => isFalse nofun
  | .str _, .arr _ => isFalse nofun
  | .str _, .obj _ => isFalse nofun
  | .arr _, .null => isFalse nofun
  | .arr _, .bool _ => isFalse nofun
  | .arr _, .num _ => isFalse nofun
  | .arr _, .str _ => isFalse nofun
  | .arr _, .obj _ => isFalse nofun
  | .obj _, .null => isFalse nofun
  | .obj _, .bool _ => isFalse nofun
  | .obj _, .num _ => isFalse nofun
  | .obj _, .str _ => isFalse nofun
  | .obj _, .arr _ => isFalse nofun

/-- Decidable equality for lists of `JValue`. -/
def decEqListJ : (xs ys : List JValue) → Decidable (xs = ys)
  | [], [] => isTrue rfl
  | [], _ :: _ => isFalse nofun
  | _ :: _, [] => isFalse nofun
  | x :: xs, y :: ys =>
    match decEqJ x y, decEqListJ xs ys with
    | isTrue h1, isTrue h2 => isTrue (by rw [h1, h2])
    | isFalse h1, _ => isFalse (fun hh => h1 (by cases hh; rfl))
    | _, isFalse h2 => isFalse (fun hh => h2 (by cases hh; rfl))

/-- Decidable equality for JSON-object field lists. -/
def decEqObjJ : (xs ys : List (String × JValue)) → Decidable (xs = ys)
  | [], [] => isTrue rfl
  | [], _ :: _ => isFalse nofun
  | _ :: _, [] => isFalse nofun
  | (k1, v1) :: xs, (k2, v2) :: ys =>
    if hk : k1 = k2 then
      match decEqJ v1 v2, decEqObjJ xs ys with
      | isTrue h1, isTrue h2 => isTrue (by rw [hk, h1, h2])
      | isFalse h1, _ => isFalse (fun hh => h1 (by cases hh; rfl))
      | _, isFalse h2 => isFalse (fun hh => h2 (by cases hh; rfl))
    else isFalse (fun hh => hk (by cases hh; rfl))

end

instance : DecidableEq JValue := decEqJ

/-- Python truthiness (`if qid:`, `if not section:`) for a JSON value. -/
def truthy : JValue → Bool
  | .null => false
  | .bool b => b
  | .num n => n != 0
  | .str s => s != ""
  | .arr xs => !xs.isEmpty
  | .obj fs => !fs.isEmpty

/-- Whether a JSON value is hashable in Python (usable in a `set` / as a
membership-test operand): lists and dicts are not. -/
def hashable : JValue → Bool
  | .arr _ => false
  | .obj _ => false
  | _ => true

/-- Association-list lookup: `d.get(key)` on a parsed JSON object. -/
def lookupKey {α : Type} : List (String × α) → String → Option α
  | [], _ => none
  | (k, v) :: fs, key => if k = key then some v else lookupKey fs key

/-- Whether the key is present: `key in d`. -/
def hasKey {α : Type} : List (String × α) → String → Bool
  | [], _ => false
  | (k, _) :: fs, key => k = key || hasKey fs key

/-- The per-entry update applied when an assigned key is already present. -/
def setKeyFun (key : String) (v : JValue) (p : String × JValue) : String × JValue :=
  if p.1 = key then (key, v) else p

/-- Python dict assignment `d[key] = v`: a present key keeps its position and
gets the new value, an absent key is appended at the end. -/
def dictSet (fs : List (String × JValue)) (key : String) (v : JValue) :
    List (String × JValue) :=
  if hasKey fs key then fs.map (setKeyFun key v) else fs ++ [(key, v)]

/-- Python `str.lower()`, modelled per character on the ASCII range. -/
def pyLower (s : String) : String := String.mk (s.data.map Char.toLower)

/-- Python slicing `s[:n]`: the first `n` characters (code points) of `s`,
or all of `s` when it is shorter. -/
def pyTake (s : String) (n : Nat) : String := String.mk (s.data.take n)

/-- Python `f"{n:03d}"`: decimal digits of `n`, zero-padded to width 3. -/
def pad3 (n : Nat) : String :=
  if n < 10 then "00" ++ toString n
  else if n < 100 then "0" ++ toString n
  else toString n

/-- The `SUBSECTION_CODES` table of the script: section name → (subsection
name → standardized code). -/
def SUBSECTION_CODES : List (String × List (String × String)) :=
  [("Logical Reasoning",
    [("Assumption", "lr-assum"),
     ("Strengthen", "lr-str"),
     ("Weaken", "lr-wk"),
     ("Flaw in Reasoning", "lr-flaw"),
     ("Inference / Must Be True", "lr-infmbt"),
     ("Point at Issue / Agreement", "lr-poi"),
     ("Method of Reasoning", "lr-method"),
     ("Role of a Statement", "lr-role"),
     ("Parallel Reasoning", "lr-preas"),
     ("Parallel Flaw", "lr-pflw"),
     ("Principle Support", "lr-psup"),
     ("Principle Application", "lr-papp"),
     ("Paradox / Resolve-Explain", "lr-paradx")]),
   ("Reading Comprehension",
    [("Main Point", "rc-main"),
     ("Primary Purpose", "rc-pp"),
     ("Author\x27s Attitude / Tone", "rc-att"),
     ("Passage Organization / Structure", "rc-org"),
     ("Specific Detail", "rc-det"),
     ("Inference", "rc-inf"),
     ("Function / Role of Statement", "rc-func"),
     ("Comparative Passage Analysis", "rc-comp")]),
   ("Writing Sample",
    [("Prompt Text", "ws-prompt"),
     ("Perspectives", "ws-persp"),
     ("Student Response", "ws-resp")])]

/-- `get_standardized_code`: exact-match lookup in the table
(`SUBSECTION_CODES.get(section, {}).get(subsection, fallback)`), with the
fallback `f"{section.lower()[:2]}-{subsection.lower()[:4]}"`. -/
def get_standardized_code (sect subsec : String) : String :=
  (lookupKey ((lookupKey SUBSECTION_CODES sect).getD []) subsec).getD
    (pyTake (pyLower sect) 2 ++ "-" ++ pyTake (pyLower subsec) 4)

/-- The call `get_standardized_code(section, subsection)` on the raw JSON
field values.  It is only reached when both values are truthy; if either is
not a string, Python raises before any code is produced (a `TypeError` when
an unhashable section is used as a dict-lookup key, otherwise an
`AttributeError` from `.lower()` while the fallback f-string is evaluated —
the f-string default argument is evaluated eagerly, even for table hits). -/
def resolveCode : JValue → JValue → Except Unit String
  | .str s, .str t => .ok (get_standardized_code s t)
  | _, _ => .error ()

/-- Outcome of the per-record body of the loop in `standardize_question_ids`:
the record as left in the parsed list, whether the update was counted as a
change (`old_id != new_id`), and whether the missing-section/subsection
warning was printed. -/
structure QOut where
  record : JValue
  changed : Bool
  warned : Bool
deriving DecidableEq

/-- The body of `for i, question in enumerate(questions)` for the record at
0-based index `i`: non-dict records are skipped silently, records with a
falsy `section` or `subsection` are skipped with a warning, and otherwise
`question['question_id']` is overwritten with `f"{code}-{i+1:03d}"`.  An
exception while the code is being resolved propagates as `.error`. -/
def processQuestion (i : Nat) (q : JValue) : Except Unit QOut :=
  match q with
  | .obj fs =>
    let sect := (lookupKey fs "section").getD (.str "")
    let subsec := (lookupKey fs "subsection").getD (.str "")
    if truthy sect && truthy subsec then
      match resolveCode sect subsec with
      | .error e => .error e
      | .ok code =>
        let newId := code ++ "-" ++ pad3 (i + 1)
        let oldId := (lookupKey fs "question_id").getD (.str "missing")
        .ok ⟨.obj (dictSet fs "question_id" (.str newId)), decide (oldId ≠ .str newId), false⟩
    else .ok ⟨.obj fs, false, true⟩
  | q => .ok ⟨q, false, false⟩

instance {ε α : Type} [DecidableEq ε] [DecidableEq α] : DecidableEq (Except ε α) := fun a b =>
  match a, b with
  | .ok x, .ok y =>
    if h : x = y then isTrue (by rw [h]) else isFalse (fun hh => h (by cases hh; rfl))
  | .error x, .error y =>
    if h : x = y then isTrue (by rw [h]) else isFalse (fun hh => h (by cases hh; rfl))
  | .ok _, .error _ => isFalse nofun
  | .error _, .ok _ => isFalse nofun

/-- Outcome of the whole record loop on one file: the records as they are
written back, the file's `updated_count`, and the 1-based indices of the
records that drew the missing-section/subsection warning. -/
structure LOut where
  records : List JValue
  updated : Nat
  warns : List Nat
deriving DecidableEq

/-- The record loop of `standardize_question_ids`, starting at 0-based index
`i`.  An exception on any record aborts the whole loop (and hence the file's
write step). -/
def processRecords (i : Nat) : List JValue → Except Unit LOut
  | [] => .ok ⟨[], 0, []⟩
  | q :: qs =>
    match processQuestion i q with
    | .error e => .error e
    | .ok o =>
      match processRecords (i + 1) qs with
      | .error e => .error e
      | .ok r =>
        .ok ⟨o.record :: r.records, (if o.changed then 1 else 0) + r.updated,
             (if o.warned then [i + 1] else []) ++ r.warns⟩

/-- On-disk content of one corpus file as seen through `json.load`:
`.malformed` stands for a file whose open/read/parse raises (caught per
file), `.parsed v` for a file holding the JSON value `v`. -/
inductive FileContent where
  | malformed : FileContent
  | parsed : JValue → FileContent

instance : DecidableEq FileContent := fun a b =>
  match a, b with
  | .malformed, .malformed => isTrue rfl
  | .parsed x, .parsed y =>
    if h : x = y then isTrue (by rw [h]) else isFalse (fun hh => h (by cases hh; rfl))
  | .malformed, .parsed _ => isFalse nofun
  | .parsed _, .malformed => isFalse nofun

/-- Outcome of the per-file body of `standardize_question_ids`: the on-disk
content after the iteration, whether `files_processed` was incremented, and
the amount added to `total_questions_updated`. -/
structure FOut where
  content : FileContent
  processed : Bool
  updated : Nat
deriving DecidableEq

/-- One iteration of the file loop of `standardize_question_ids` (after the
exclusion check): a malformed file is caught and left as is; a parsed value
that is not a list is skipped (`Not a question array`); otherwise the
records are processed and, if no exception was raised, the updated list is
written back in place.  An exception anywhere before the write leaves the
on-disk content untouched. -/
def processFile : FileContent → FOut
  | .malformed => ⟨.malformed, false, 0⟩
  | .parsed (.arr qs) =>
    match processRecords 0 qs with
    | .error _ => ⟨.parsed (.arr qs), false, 0⟩
    | .ok r => ⟨.parsed (.arr r.records), true, r.updated⟩
  | .parsed v => ⟨.parsed v, false, 0⟩

/-- The two file names excluded by name from both passes. -/
def EXCLUDED_FILES : List String :=
  ["lsat_taxonomy_2025.json", "universal_question_schema.json"]

/-- The corpus: the `*.json` files of the questions directory in glob order,
each with its name and current on-disk content. -/
abbrev Corpus : Type := List (String × FileContent)

/-- The file loop body including the exclusion-by-name check. -/
def processEntry (e : String × FileContent) : (String × FileContent) × Bool × Nat :=
  if e.1 ∈ EXCLUDED_FILES then (e, false, 0)
  else
    let r := processFile e.2
    ((e.1, r.content), r.processed, r.updated)

/-- The corpus as rewritten on disk by the assignment pass. -/
def standardizeFiles (c : Corpus) : Corpus := c.map (fun e => (processEntry e).1)

/-- The `files_processed` counter of the final report. -/
def filesProcessed (c : Corpus) : Nat :=
  (c.map (fun e => if (processEntry e).2.1 then 1 else 0)).sum

/-- The `total_questions_updated` counter of the final report. -/
def questionsUpdated (c : Corpus) : Nat :=
  (c.map (fun e => (processEntry e).2.2)).sum

/-- The two sets built by `verify_no_duplicates`, as insertion-ordered lists
without duplicates: `all_ids` collects every truthy `question_id` seen,
`dups` every one seen again after it was already in `all_ids`. -/
structure VState where
  all_ids : List JValue
  dups : List JValue
deriving DecidableEq

/-- The set updates for one truthy, hashable `question_id` value:
`if qid in all_ids: duplicate_ids.add(qid) else: all_ids.add(qid)`. -/
def addId (st : VState) (qid : JValue) : VState :=
  if qid ∈ st.all_ids then
    ⟨st.all_ids, if qid ∈ st.dups then st.dups else st.dups ++ [qid]⟩
  else ⟨st.all_ids ++ [qid], st.dups⟩

/-- The body of the record loop of `verify_no_duplicates`: non-dict records
are ignored, a falsy `question_id` (absent, `None`, empty string, zero,
false, empty list or dict) is ignored, and a truthy unhashable one raises a
`TypeError` at the membership test (caught at file level). -/
def scanQuestion (st : VState) (q : JValue) : Except Unit VState :=
  match q with
  | .obj fs =>
    let qid := (lookupKey fs "question_id").getD .null
    if truthy qid then
      if hashable qid then .ok (addId st qid) else .error ()
    else .ok st
  | _ => .ok st

/-- The record loop of `verify_no_duplicates` on one file: an exception
stops the scan of this file but keeps the set insertions already made. -/
def scanRecords (st : VState) : List JValue → VState
  | [] => st
  | q :: qs =>
    match scanQuestion st q with
    | .error _ => st
    | .ok st2 => scanRecords st2 qs

/-- One file of the verification pass: a malformed file is caught and
skipped; iterating a parsed dict yields its keys (strings, so not dicts)
and iterating a string yields strings, so neither touches the sets;
iterating any other non-list raises a `TypeError`, also caught. -/
def scanFile (st : VState) : FileContent → VState
  | .malformed => st
  | .parsed (.arr qs) => scanRecords st qs
  | .parsed _ => st

/-- The file loop body of `verify_no_duplicates`, with the exclusion check. -/
def verifyEntry (st : VState) (e : String × FileContent) : VState :=
  if e.1 ∈ EXCLUDED_FILES then st else scanFile st e.2

/-- `verify_no_duplicates`: scan the whole corpus, starting from empty sets. -/
def verify_no_duplicates (c : Corpus) : VState :=
  c.foldl verifyEntry ⟨[], []⟩

/-- The final report of a run: the two printed counters and the
verification sets (from which the duplicate listing and the distinct-ID
count are printed). -/
structure Report where
  files_processed : Nat
  questions_updated : Nat
  verification : VState
deriving DecidableEq

/-- `standardize_question_ids` on a corpus (the directory exists): rewrite
every non-excluded file in place, then report the counters and run
`verify_no_duplicates` on the resulting on-disk corpus. -/
def standardize_question_ids (c : Corpus) : Corpus × Report :=
  (standardizeFiles c, ⟨filesProcessed c, questionsUpdated c, verify_no_duplicates (standardizeFiles c)⟩)

/-! ### Dictionary lemmas -/

theorem setKeyFun_hit (key : String) (v : JValue) (k : String) (w : JValue) (h : k = key) :
    setKeyFun key v (k, w) = (key, v) := by
  simp [setKeyFun, h]

theorem setKeyFun_miss (key : String) (v : JValue) (k : String) (w : JValue) (h : ¬k = key) :
    setKeyFun key v (k, w) = (k, w) := by
  simp [setKeyFun, h]

theorem setKeyFun_idem (key : String) (v : JValue) (p : String × JValue) :
    setKeyFun key v (setKeyFun key v p) = setKeyFun key v p := by
  obtain ⟨k, w⟩ := p
  by_cases hk : k = key
  · rw [setKeyFun_hit key v k w hk, setKeyFun_hit key v key v rfl]
  · rw [setKeyFun_miss key v k w hk, setKeyFun_miss key v k w hk]

theorem hasKey_map_setKey (fs : List (String × JValue)) (key : String) (v : JValue)
    (key2 : String) : hasKey (fs.map (setKeyFun key v)) key2 = hasKey fs key2 := by
  induction fs with
  | nil => rfl
  | cons p fs ih =>
    obtain ⟨k, w⟩ := p
    by_cases hk : k = key
    · subst hk
      rw [List.map_cons, setKeyFun_hit k v k w rfl]
      simp [hasKey, ih]
    · rw [List.map_cons, setKeyFun_miss key v k w hk]
      simp [hasKey, ih]

theorem lookup_map_setKey_self (fs : List (String × JValue)) (key : String) (v : JValue)
    (h : hasKey fs key = true) : lookupKey (fs.map (setKeyFun key v)) key = some v := by
  induction fs with
  | nil => simp [hasKey] at h
  | cons p fs ih =>
    obtain ⟨k, w⟩ := p
    by_cases hk : k = key
    · rw [List.map_cons, setKeyFun_hit key v k w hk]
      simp [lookupKey]
    · simp only [hasKey, hk, decide_eq_false, Bool.false_or] at h
      rw [List.map_cons, setKeyFun_miss key v k w hk]
      simp [lookupKey, hk, ih h]

theorem lookup_map_setKey_other (fs : List (String × JValue)) (key : String) (v : JValue)
    (key2 : String) (h : key2 ≠ key) :
    lookupKey (fs.map (setKeyFun key v)) key2 = lookupKey fs key2 := by
  induction fs with
  | nil => rfl
  | cons p fs ih =>
    obtain ⟨k, w⟩ := p
    by_cases hk : k = key
    · subst hk
      rw [List.map_cons, setKeyFun_hit k v k w rfl]
      simp [lookupKey, Ne.symm h, ih]
    · rw [List.map_cons, setKeyFun_miss key v k w hk]
      by_cases hk2 : k = key2 <;> simp [lookupKey, hk2, ih]

theorem lookup_of_hasKey_false (fs : List (String × JValue)) (key : String)
    (h : hasKey fs key = false) : lookupKey fs key = none := by
  induction fs with
  | nil => rfl
  | cons p fs ih =>
    obtain ⟨k, w⟩ := p
    simp only [hasKey, Bool.or_eq_false_iff, decide_eq_false_iff_not] at h
    simp [lookupKey, h.1, ih h.2]

theorem hasKey_append (fs gs : List (String × JValue)) (key : String) :
    hasKey (fs ++ gs) key = (hasKey fs key || hasKey gs key) := by
  induction fs with
  | nil => simp [hasKey]
  | cons p fs ih =>
    obtain ⟨k, w⟩ := p
    simp [hasKey, ih, Bool.or_assoc]

theorem lookup_append_left_absent (fs gs : List (String × JValue)) (key : String)
    (h : hasKey fs key = false) : lookupKey (fs ++ gs) key = lookupKey gs key := by
  induction fs with
  | nil => rfl
  | cons p fs ih =>
    obtain ⟨k, w⟩ := p
    simp only [hasKey, Bool.or_eq_false_iff, decide_eq_false_iff_not] at h
    simp [lookupKey, h.1, ih h.2]

theorem lookup_append_single_other (fs : List (String × JValue)) (key : String) (v : JValue)
    (key2 : String) (h : key2 ≠ key) :
    lookupKey (fs ++ [(key, v)]) key2 = lookupKey fs key2 := by
  induction fs with
  | nil => simp [lookupKey, Ne.symm h]
  | cons p fs ih =>
    obtain ⟨k, w⟩ := p
    by_cases hk : k = key2 <;> simp [lookupKey, hk, ih]

theorem map_setKey_of_hasKey_false (fs : List (String × JValue)) (key : String) (v : JValue)
    (h : hasKey fs key = false) : fs.map (setKeyFun key v) = fs := by
  induction fs with
  | nil => rfl
  | cons p fs ih =>
    obtain ⟨k, w⟩ := p
    simp only [hasKey, Bool.or_eq_false_iff, decide_eq_false_iff_not] at h
    simp [setKeyFun, h.1, ih h.2]

theorem lookup_dictSet_self (fs : List (String × JValue)) (key : String) (v : JValue) :
    lookupKey (dictSet fs key v) key = some v := by
  unfold dictSet
  by_cases h : hasKey fs key = true
  · simp [h, lookup_map_setKey_self fs key v h]
  · simp only [Bool.not_eq_true] at h
    simp [h, lookup_append_left_absent fs _ key h, lookupKey]

theorem lookup_dictSet_other (fs : List (String × JValue)) (key : String) (v : JValue)
    (key2 : String) (h : key2 ≠ key) :
    lookupKey (dictSet fs key v) key2 = lookupKey fs key2 := by
  unfold dictSet
  by_cases hk : hasKey fs key = true
  · simp [hk, lookup_map_setKey_other fs key v key2 h]
  · simp only [Bool.not_eq_true] at hk
    simp [hk, lookup_append_single_other fs key v key2 h]

theorem dictSet_idem (fs : List (String × JValue)) (key : String) (v : JValue) :
    dictSet (dictSet fs key v) key v = dictSet fs key v := by
  by_cases h : hasKey fs key = true
  · have h1 : dictSet fs key v = fs.map (setKeyFun key v) := by simp [dictSet, h]
    rw [h1]
    have h2 : hasKey (fs.map (setKeyFun key v)) key = true := by
      rw [hasKey_map_setKey]; exact h
    simp only [dictSet, h2, if_true, List.map_map]
    exact List.map_congr_left (fun p _ => setKeyFun_idem key v p)
  · simp only [Bool.not_eq_true] at h
    have h1 : dictSet fs key v = fs ++ [(key, v)] := by simp [dictSet, h]
    rw [h1]
    have h2 : hasKey (fs ++ [(key, v)]) key = true := by
      simp [hasKey_append, hasKey]
    simp only [dictSet, h2, if_true, List.map_append]
    rw [map_setKey_of_hasKey_false fs key v h]
    simp [setKeyFun]

/-! ### Record-processing lemmas -/

/-- The ID computed for a record with section `s` and subsection `t` at
0-based index `i`: `f"{code}-{i+1:03d}"`. -/
def newIdFor (s t : String) (i : Nat) : String :=
  get_standardized_code s t ++ "-" ++ pad3 (i + 1)

theorem processQuestion_nonobj (i : Nat) (q : JValue) (h : ∀ fs, q ≠ .obj fs) :
    processQuestion i q = .ok ⟨q, false, false⟩ := by
  cases q <;> simp [processQuestion] at h ⊢

theorem processQuestion_skip (i : Nat) (fs : List (String × JValue))
    (h : truthy ((lookupKey fs "section").getD (.str "")) = false ∨
         truthy ((lookupKey fs "subsection").getD (.str "")) = false) :
    processQuestion i (.obj fs) = .ok ⟨.obj fs, false, true⟩ := by
  rcases h with h | h <;> simp [processQuestion, h]

theorem processQuestion_assign (i : Nat) (fs : List (String × JValue)) (s t : String)
    (hs : (lookupKey fs "section").getD (.str "") = .str s) (hs1 : s ≠ "")
    (ht : (lookupKey fs "subsection").getD (.str "") = .str t) (ht1 : t ≠ "") :
    processQuestion i (.obj fs) =
      .ok ⟨.obj (dictSet fs "question_id" (.str (newIdFor s t i))),
           decide ((lookupKey fs "question_id").getD (.str "missing") ≠ .str (newIdFor s t i)),
           false⟩ := by
  simp [processQuestion, hs, ht, truthy, hs1, ht1, resolveCode, newIdFor]

theorem resolveCode_err_left (a b : JValue) (h : ∀ s, a ≠ .str s) :
    resolveCode a b = .error () := by
  cases a <;> cases b <;> simp_all [resolveCode]

theorem resolveCode_err_right (a b : JValue) (h : ∀ t, b ≠ .str t) :
    resolveCode a b = .error () := by
  cases a <;> cases b <;> simp_all [resolveCode]

/-- Inversion for a successful record step on a dict record: either the
missing-section/subsection skip fired, or both classification fields were
non-empty strings and the ID was assigned. -/
theorem processQuestion_obj_ok (i : Nat) (fs : List (String × JValue)) (o : QOut)
    (h : processQuestion i (.obj fs) = .ok o) :
    ((truthy ((lookupKey fs "section").getD (.str "")) = false ∨
        truthy ((lookupKey fs "subsection").getD (.str "")) = false) ∧
      o = ⟨.obj fs, false, true⟩) ∨
    ∃ s t, (lookupKey fs "section").getD (.str "") = .str s ∧ s ≠ "" ∧
      (lookupKey fs "subsection").getD (.str "") = .str t ∧ t ≠ "" ∧
      o = ⟨.obj (dictSet fs "question_id" (.str (newIdFor s t i))),
           decide ((lookupKey fs "question_id").getD (.str "missing") ≠ .str (newIdFor s t i)),
           false⟩ := by
  by_cases h1 : truthy ((lookupKey fs "section").getD (.str "")) = true
  · by_cases h2 : truthy ((lookupKey fs "subsection").getD (.str "")) = true
    · right
      cases hs : (lookupKey fs "section").getD (.str "") with
      | str s =>
        cases ht : (lookupKey fs "subsection").getD (.str "") with
        | str t =>
          have hs1 : s ≠ "" := by rw [hs] at h1; simpa [truthy] using h1
          have ht1 : t ≠ "" := by rw [ht] at h2; simpa [truthy] using h2
          refine ⟨s, t, rfl, hs1, rfl, ht1, ?_⟩
          rw [processQuestion_assign i fs s t hs hs1 ht ht1] at h
          exact (Except.ok.inj h).symm
        | null | bool b | num n | arr xs | obj gs =>
          rw [show processQuestion i (.obj fs) = .error () from ?_] at h
          · cases h
          · simp only [processQuestion, h1, h2, Bool.and_self, if_true]
            rw [resolveCode_err_right _ _ (by intro t2 hh; rw [ht] at hh; cases hh)]
      | null | bool b | num n | arr xs | obj gs =>
        rw [show processQuestion i (.obj fs) = .error () from ?_] at h
        · cases h
        · simp only [processQuestion, h1, h2, Bool.and_self, if_true]
          rw [resolveCode_err_left _ _ (by intro s2 hh; rw [hs] at hh; cases hh)]
    · left
      simp only [Bool.not_eq_true] at h2
      rw [processQuestion_skip i fs (Or.inr h2)] at h
      exact ⟨Or.inr h2, (Except.ok.inj h).symm⟩
  · left
    simp only [Bool.not_eq_true] at h1
    rw [processQuestion_skip i fs (Or.inl h1)] at h
    exact ⟨Or.inl h1, (Except.ok.inj h).symm⟩

/-- A record left or produced by a successful first step is a fixed point of
the step: the second run recomputes the same ID, counts no change and warns
on the same records. -/
theorem processQuestion_stable (i : Nat) (q : JValue) (o : QOut)
    (h : processQuestion i q = .ok o) :
    processQuestion i o.record = .ok ⟨o.record, false, o.warned⟩ := by
  cases q
  case obj fs =>
    rcases processQuestion_obj_ok i fs o h with ⟨hcond, rfl⟩ | ⟨s, t, hs, hs1, ht, ht1, rfl⟩
    · exact processQuestion_skip i fs hcond
    · have hne : ("section" : String) ≠ "question_id" := by decide
      have hne2 : ("subsection" : String) ≠ "question_id" := by decide
      have hs2 : (lookupKey (dictSet fs "question_id" (.str (newIdFor s t i))) "section").getD
          (.str "") = .str s := by
        rw [lookup_dictSet_other fs "question_id" _ "section" hne]; exact hs
      have ht2 : (lookupKey (dictSet fs "question_id" (.str (newIdFor s t i))) "subsection").getD
          (.str "") = .str t := by
        rw [lookup_dictSet_other fs "question_id" _ "subsection" hne2]; exact ht
      rw [processQuestion_assign i _ s t hs2 hs1 ht2 ht1]
      rw [lookup_dictSet_self fs "question_id" (.str (newIdFor s t i))]
      rw [dictSet_idem fs "question_id" (.str (newIdFor s t i))]
      simp
  all_goals {
    rw [processQuestion_nonobj i _ (by intro fs2 hh; cases hh)] at h
    cases h
    exact processQuestion_nonobj i _ (by intro fs2 hh; cases hh)
  }

/-- The change count of the loop, recomputed record by record: a record
whose step succeeds contributes 1 exactly when its new ID differs from its
old one. -/
def countChanged (i : Nat) : List JValue → Nat
  | [] => 0
  | q :: qs =>
    (match processQuestion i q with
     | .ok o => if o.changed then 1 else 0
     | .error _ => 0) + countChanged (i + 1) qs

theorem processRecords_ok_length (i : Nat) (qs : List JValue) (r : LOut)
    (h : processRecords i qs = .ok r) : r.records.length = qs.length := by
  induction qs generalizing i r with
  | nil =>
    simp only [processRecords] at h
    cases h
    rfl
  | cons q qs ih =>
    simp only [processRecords] at h
    cases hq : processQuestion i q with
    | error e => rw [hq] at h; cases h
    | ok o =>
      rw [hq] at h
      cases hr : processRecords (i + 1) qs with
      | error e => rw [hr] at h; cases h
      | ok r2 =>
        rw [hr] at h
        cases h
        simp [ih (i + 1) r2 hr]

theorem processRecords_ok_get (i : Nat) (qs : List JValue) (r : LOut)
    (h : processRecords i qs = .ok r) (k : Nat) (q : JValue) (hk : qs[k]? = some q) :
    ∃ o : QOut, processQuestion (i + k) q = .ok o ∧ r.records[k]? = some o.record := by
  induction qs generalizing i r k with
  | nil => simp at hk
  | cons q0 qs ih =>
    simp only [processRecords] at h
    cases hq : processQuestion i q0 with
    | error e => rw [hq] at h; cases h
    | ok o =>
      rw [hq] at h
      cases hr : processRecords (i + 1) qs with
      | error e => rw [hr] at h; cases h
      | ok r2 =>
        rw [hr] at h
        cases h
        cases k with
        | zero =>
          simp only [List.getElem?_cons_zero, Option.some.injEq] at hk
          subst hk
          exact ⟨o, by simpa using hq, by simp⟩
        | succ k =>
          simp only [List.getElem?_cons_succ] at hk
          obtain ⟨o2, ho2, hrec⟩ := ih (i + 1) r2 hr k hk
          refine ⟨o2, ?_, by simpa using hrec⟩
          have harith : i + (k + 1) = i + 1 + k := by omega
          rw [harith]
          exact ho2

theorem processRecords_ok_updated (i : Nat) (qs : List JValue) (r : LOut)
    (h : processRecords i qs = .ok r) : r.updated = countChanged i qs := by
  induction qs generalizing i r with
  | nil =>
    simp only [processRecords] at h
    cases h
    rfl
  | cons q qs ih =>
    simp only [processRecords] at h
    cases hq : processQuestion i q with
    | error e => rw [hq] at h; cases h
    | ok o =>
      rw [hq] at h
      cases hr : processRecords (i + 1) qs with
      | error e => rw [hr] at h; cases h
      | ok r2 =>
        rw [hr] at h
        cases h
        simp [countChanged, hq, ih (i + 1) r2 hr]

/-- Re-running the loop on its own successful output changes nothing: it
assigns the same IDs again, counts zero changes and warns on the same
records. -/
theorem processRecords_stable (i : Nat) (qs : List JValue) (r : LOut)
    (h : processRecords i qs = .ok r) :
    processRecords i r.records = .ok ⟨r.records, 0, r.warns⟩ := by
  induction qs generalizing i r with
  | nil =>
    simp only [processRecords] at h
    cases h
    rfl
  | cons q qs ih =>
    simp only [processRecords] at h
    cases hq : processQuestion i q with
    | error e => rw [hq] at h; cases h
    | ok o =>
      rw [hq] at h
      cases hr : processRecords (i + 1) qs with
      | error e => rw [hr] at h; cases h
      | ok r2 =>
        rw [hr] at h
        cases h
        simp [processRecords, processQuestion_stable i q o hq, ih (i + 1) r2 hr]

/-! ### File- and corpus-level lemmas -/

theorem processFile_content_stable (c : FileContent) :
    (processFile (processFile c).content).content = (processFile c).content := by
  cases c with
  | malformed => rfl
  | parsed v =>
    cases v with
    | arr qs =>
      cases hr : processRecords 0 qs with
      | error e => simp [processFile, hr]
      | ok r => simp [processFile, hr, processRecords_stable 0 qs r hr]
    | null => rfl
    | bool b => rfl
    | num n => rfl
    | str s => rfl
    | obj fs => rfl

theorem processEntry_fst_name (e : String × FileContent) : ((processEntry e).1).1 = e.1 := by
  unfold processEntry
  split <;> rfl

theorem processEntry_fst_stable (e : String × FileContent) :
    (processEntry (processEntry e).1).1 = (processEntry e).1 := by
  by_cases hx : e.1 ∈ EXCLUDED_FILES
  · simp [processEntry, hx]
  · obtain ⟨name, content⟩ := e
    simp only at hx
    simp [processEntry, hx, processFile_content_stable]

theorem standardizeFiles_idem (c : Corpus) :
    standardizeFiles (standardizeFiles c) = standardizeFiles c := by
  unfold standardizeFiles
  rw [List.map_map]
  exact List.map_congr_left (fun e _ => processEntry_fst_stable e)

/-! ### Verification-pass lemmas -/

/-- The `question_id` value the verification scan extracts from a record:
`question.get('question_id')`, with `None` standing in for non-dict records
(whose scan step touches nothing). -/
def qidOf : JValue → JValue
  | .obj fs => (lookupKey fs "question_id").getD .null
  | _ => .null

/-- Whether a record cannot make the scan raise: its `question_id` value is
falsy or hashable. -/
def qidOk (q : JValue) : Bool := !truthy (qidOf q) || hashable (qidOf q)

/-- Whether no record of the file can make the scan raise. -/
def fileQidsOk : FileContent → Bool
  | .parsed (.arr qs) => qs.all qidOk
  | _ => true

/-- Whether no record of any non-excluded file can make the scan raise. -/
def corpusQidsOk (c : Corpus) : Bool :=
  c.all (fun e => decide (e.1 ∈ EXCLUDED_FILES) || fileQidsOk e.2)

/-- How many records of a list carry the `question_id` value `v`. -/
def occRecords (v : JValue) : List JValue → Nat
  | [] => 0
  | q :: qs => (if qidOf q = v then 1 else 0) + occRecords v qs

/-- How many records of a file carry the `question_id` value `v`. -/
def occFile (v : JValue) : FileContent → Nat
  | .parsed (.arr qs) => occRecords v qs
  | _ => 0

/-- How many records of the non-excluded files of the corpus carry the
`question_id` value `v`. -/
def occCorpus (v : JValue) : Corpus → Nat
  | [] => 0
  | e :: c => (if e.1 ∈ EXCLUDED_FILES then 0 else occFile v e.2) + occCorpus v c

theorem mem_addId_all (st : VState) (w v : JValue) :
    v ∈ (addId st w).all_ids ↔ v ∈ st.all_ids ∨ v = w := by
  unfold addId
  split
  · next h =>
    constructor
    · exact fun h2 => Or.inl h2
    · rintro (h2 | rfl)
      · exact h2
      · exact h
  · next h => simp [List.mem_append]

theorem mem_addId_dups (st : VState) (w v : JValue) :
    v ∈ (addId st w).dups ↔ v ∈ st.dups ∨ (v = w ∧ w ∈ st.all_ids) := by
  unfold addId
  split
  · next h =>
    split
    · next h2 =>
      constructor
      · exact fun h3 => Or.inl h3
      · rintro (h3 | ⟨rfl, _⟩)
        · exact h3
        · exact h2
    · next h2 => simp [List.mem_append, h]
  · next h => simp [h]

theorem scanQuestion_ok_of_qidOk (st : VState) (q : JValue) (h : qidOk q = true) :
    scanQuestion st q = .ok (if truthy (qidOf q) then addId st (qidOf q) else st) := by
  cases q with
  | obj fs =>
    by_cases ht : truthy ((lookupKey fs "question_id").getD .null) = true
    · have hh : hashable ((lookupKey fs "question_id").getD .null) = true := by
        simp only [qidOk, qidOf, ht] at h
        simpa using h
      simp [scanQuestion, qidOf, ht, hh]
    · simp only [Bool.not_eq_true] at ht
      simp [scanQuestion, qidOf, ht]
  | null => simp [scanQuestion, qidOf, truthy]
  | bool b => simp [scanQuestion, qidOf, truthy]
  | num n => simp [scanQuestion, qidOf, truthy]
  | str s => simp [scanQuestion, qidOf, truthy]
  | arr xs => simp [scanQuestion, qidOf, truthy]

/-- Exact characterization of the two sets after scanning one file's
records, provided no record can raise: a value is collected iff it is truthy
and occurs; it is reported as a duplicate iff it is truthy and either occurs
here while already collected, or occurs here at least twice. -/
theorem scanRecords_mem (qs : List JValue) (st : VState) (v : JValue)
    (hok : qs.all qidOk = true) :
    (v ∈ (scanRecords st qs).all_ids ↔
      v ∈ st.all_ids ∨ (truthy v = true ∧ 1 ≤ occRecords v qs)) ∧
    (v ∈ (scanRecords st qs).dups ↔
      v ∈ st.dups ∨ (truthy v = true ∧
        (v ∈ st.all_ids ∧ 1 ≤ occRecords v qs ∨ 2 ≤ occRecords v qs))) := by
  induction qs generalizing st with
  | nil => simp [scanRecords, occRecords]
  | cons q qs ih =>
    simp only [List.all_cons, Bool.and_eq_true] at hok
    obtain ⟨hq, hok2⟩ := hok
    simp only [scanRecords, scanQuestion_ok_of_qidOk st q hq]
    by_cases ht : truthy (qidOf q) = true
    · simp only [ht, if_true]
      obtain ⟨ihA, ihD⟩ := ih (addId st (qidOf q)) hok2
      by_cases he : qidOf q = v
      · subst he
        constructor
        · rw [ihA, mem_addId_all]
          have h1 : 1 ≤ occRecords (qidOf q) (q :: qs) := by simp [occRecords]
          simp [ht, h1]
        · rw [ihD, mem_addId_dups, mem_addId_all]
          have e1 : occRecords (qidOf q) (q :: qs) = 1 + occRecords (qidOf q) qs := by
            simp [occRecords]
          rw [e1]
          constructor
          · rintro ((hd | ⟨_, ha⟩) | ⟨_, (⟨_, hn⟩ | hn)⟩)
            · exact Or.inl hd
            · exact Or.inr ⟨ht, Or.inl ⟨ha, by omega⟩⟩
            · exact Or.inr ⟨ht, Or.inr (by omega)⟩
            · exact Or.inr ⟨ht, Or.inr (by omega)⟩
          · rintro (hd | ⟨_, (⟨ha, _⟩ | hn)⟩)
            · exact Or.inl (Or.inl hd)
            · exact Or.inl (Or.inr ⟨rfl, ha⟩)
            · exact Or.inr ⟨ht, Or.inl ⟨Or.inr rfl, by omega⟩⟩
      · have he2 : v ≠ qidOf q := fun hh => he hh.symm
        have e1 : occRecords v (q :: qs) = occRecords v qs := by simp [occRecords, he]
        constructor
        · rw [ihA, mem_addId_all, e1]
          simp [he2]
        · rw [ihD, mem_addId_dups, mem_addId_all, e1]
          simp [he2]
    · simp only [Bool.not_eq_true] at ht
      simp only [ht, Bool.false_eq_true, if_false]
      obtain ⟨ihA, ihD⟩ := ih st hok2
      by_cases he : qidOf q = v
      · have hTv : truthy v = false := by rw [← he]; exact ht
        constructor
        · rw [ihA]; simp [hTv]
        · rw [ihD]; simp [hTv]
      · have e1 : occRecords v (q :: qs) = occRecords v qs := by simp [occRecords, he]
        rw [e1]
        exact ⟨ihA, ihD⟩

theorem scanFile_mem (f : FileContent) (st : VState) (v : JValue)
    (hok : fileQidsOk f = true) :
    (v ∈ (scanFile st f).all_ids ↔
      v ∈ st.all_ids ∨ (truthy v = true ∧ 1 ≤ occFile v f)) ∧
    (v ∈ (scanFile st f).dups ↔
      v ∈ st.dups ∨ (truthy v = true ∧
        (v ∈ st.all_ids ∧ 1 ≤ occFile v f ∨ 2 ≤ occFile v f))) := by
  cases f with
  | malformed => simp [scanFile, occFile]
  | parsed w =>
    cases w with
    | arr qs => exact scanRecords_mem qs st v (by simpa [fileQidsOk] using hok)
    | null => simp [scanFile, occFile]
    | bool b => simp [scanFile, occFile]
    | num n => simp [scanFile, occFile]
    | str s => simp [scanFile, occFile]
    | obj fs => simp [scanFile, occFile]

/-- Exact characterization of the two sets accumulated over the whole
corpus, provided no record of a non-excluded file can make the scan raise. -/
theorem verifyFold_mem (c : Corpus) (st : VState) (v : JValue)
    (hok : corpusQidsOk c = true) :
    (v ∈ (c.foldl verifyEntry st).all_ids ↔
      v ∈ st.all_ids ∨ (truthy v = true ∧ 1 ≤ occCorpus v c)) ∧
    (v ∈ (c.foldl verifyEntry st).dups ↔
      v ∈ st.dups ∨ (truthy v = true ∧
        (v ∈ st.all_ids ∧ 1 ≤ occCorpus v c ∨ 2 ≤ occCorpus v c))) := by
  induction c generalizing st with
  | nil => simp [occCorpus]
  | cons e c ih =>
    simp only [corpusQidsOk, List.all_cons, Bool.and_eq_true] at hok
    obtain ⟨he, hok2⟩ := hok
    rw [List.foldl_cons]
    by_cases hx : e.1 ∈ EXCLUDED_FILES
    · have hv : verifyEntry st e = st := by simp [verifyEntry, hx]
      have hocc : occCorpus v (e :: c) = occCorpus v c := by simp [occCorpus, hx]
      rw [hv, hocc]
      exact ih st hok2
    · have hfileok : fileQidsOk e.2 = true := by simpa [hx] using he
      have hv : verifyEntry st e = scanFile st e.2 := by simp [verifyEntry, hx]
      have hocc : occCorpus v (e :: c) = occFile v e.2 + occCorpus v c := by
        simp [occCorpus, hx]
      rw [hv, hocc]
      obtain ⟨fA, fD⟩ := scanFile_mem e.2 st v hfileok
      obtain ⟨iA, iD⟩ := ih (scanFile st e.2) hok2
      constructor
      · rw [iA, fA]
        constructor
        · rintro ((hm | ⟨hT, hn⟩) | ⟨hT, hn⟩)
          · exact Or.inl hm
          · exact Or.inr ⟨hT, by omega⟩
          · exact Or.inr ⟨hT, by omega⟩
        · rintro (hm | ⟨hT, hn⟩)
          · exact Or.inl (Or.inl hm)
          · by_cases h1 : 1 ≤ occFile v e.2
            · exact Or.inl (Or.inr ⟨hT, h1⟩)
            · exact Or.inr ⟨hT, by omega⟩
      · rw [iD, fD, fA]
        constructor
        · rintro ((hd | ⟨hT, hin⟩) | ⟨hT, hin⟩)
          · exact Or.inl hd
          · rcases hin with ⟨ha, hn⟩ | hn
            · exact Or.inr ⟨hT, Or.inl ⟨ha, by omega⟩⟩
            · exact Or.inr ⟨hT, Or.inr (by omega)⟩
          · rcases hin with ⟨hall, hn⟩ | hn
            · rcases hall with ha | ⟨hT2, hnf⟩
              · exact Or.inr ⟨hT, Or.inl ⟨ha, by omega⟩⟩
              · exact Or.inr ⟨hT, Or.inr (by omega)⟩
            · exact Or.inr ⟨hT, Or.inr (by omega)⟩
        · rintro (hd | ⟨hT, hin⟩)
          · exact Or.inl (Or.inl hd)
          · rcases hin with ⟨ha, hn⟩ | hn
            · by_cases h1 : 1 ≤ occFile v e.2
              · exact Or.inl (Or.inr ⟨hT, Or.inl ⟨ha, h1⟩⟩)
              · exact Or.inr ⟨hT, Or.inl ⟨Or.inl ha, by omega⟩⟩
            · by_cases h2 : 2 ≤ occFile v e.2
              · exact Or.inl (Or.inr ⟨hT, Or.inr h2⟩)
              · by_cases h1 : 1 ≤ occFile v e.2
                · exact Or.inr ⟨hT, Or.inl ⟨Or.inr ⟨hT, h1⟩, by omega⟩⟩
                · exact Or.inr ⟨hT, Or.inr (by omega)⟩

/-- Invariant of the verification sets: every member is truthy. -/
def allTruthy (st : VState) : Prop :=
  (∀ v ∈ st.all_ids, truthy v = true) ∧ (∀ v ∈ st.dups, truthy v = true)

theorem addId_allTruthy (st : VState) (w : JValue) (hw : truthy w = true)
    (h : allTruthy st) : allTruthy (addId st w) := by
  obtain ⟨h1, h2⟩ := h
  constructor
  · intro v hv
    rw [mem_addId_all] at hv
    rcases hv with hv | rfl
    · exact h1 v hv
    · exact hw
  · intro v hv
    rw [mem_addId_dups] at hv
    rcases hv with hv | ⟨rfl, _⟩
    · exact h2 v hv
    · exact hw

theorem scanQuestion_allTruthy (st : VState) (q : JValue) (st2 : VState)
    (h : scanQuestion st q = .ok st2) (hst : allTruthy st) : allTruthy st2 := by
  cases q with
  | obj fs =>
    by_cases ht : truthy ((lookupKey fs "question_id").getD .null) = true
    · by_cases hh : hashable ((lookupKey fs "question_id").getD .null) = true
      · simp only [scanQuestion, ht, hh, if_true] at h
        cases h
        exact addId_allTruthy st _ ht hst
      · simp [scanQuestion, ht, hh] at h
    · simp only [Bool.not_eq_true] at ht
      simp only [scanQuestion, ht, Bool.false_eq_true, if_false, Except.ok.injEq] at h
      subst h
      exact hst
  | null => cases h; exact hst
  | bool b => cases h; exact hst
  | num n => cases h; exact hst
  | str s => cases h; exact hst
  | arr xs => cases h; exact hst

theorem scanRecords_allTruthy (qs : List JValue) (st : VState) (hst : allTruthy st) :
    allTruthy (scanRecords st qs) := by
  induction qs generalizing st with
  | nil => exact hst
  | cons q qs ih =>
    cases hq : scanQuestion st q with
    | error e => simp only [scanRecords, hq]; exact hst
    | ok st2 =>
      simp only [scanRecords, hq]
      exact ih st2 (scanQuestion_allTruthy st q st2 hq hst)

theorem scanFile_allTruthy (f : FileContent) (st : VState) (hst : allTruthy st) :
    allTruthy (scanFile st f) := by
  cases f with
  | malformed => exact hst
  | parsed w =>
    cases w with
    | arr qs => exact scanRecords_allTruthy qs st hst
    | null => exact hst
    | bool b => exact hst
    | num n => exact hst
    | str s => exact hst
    | obj fs => exact hst

theorem verify_allTruthy (c : Corpus) : allTruthy (verify_no_duplicates c) := by
  unfold verify_no_duplicates
  have hgen : ∀ st : VState, allTruthy st → allTruthy (c.foldl verifyEntry st) := by
    induction c with
    | nil => exact fun st h => h
    | cons e c ih =>
      intro st hst
      rw [List.foldl_cons]
      apply ih
      unfold verifyEntry
      split
      · exact hst
      · exact scanFile_allTruthy e.2 st hst
  exact hgen ⟨[], []⟩ ⟨by simp, by simp⟩

/-- A successful record step either leaves the record untouched or only
rewrites its `question_id` field. -/
theorem processQuestion_frame (i : Nat) (q : JValue) (o : QOut)
    (h : processQuestion i q = .ok o) :
    o.record = q ∨
    ∃ fs fs2, q = .obj fs ∧ o.record = .obj fs2 ∧
      ∀ key, key ≠ "question_id" → lookupKey fs2 key = lookupKey fs key := by
  cases q
  case obj fs =>
    rcases processQuestion_obj_ok i fs o h with ⟨_, rfl⟩ | ⟨s, t, _, _, _, _, rfl⟩
    · exact Or.inl rfl
    · exact Or.inr ⟨fs, _, rfl, rfl,
        fun key hk => lookup_dictSet_other fs "question_id" _ key hk⟩
  all_goals {
    rw [processQuestion_nonobj i _ (by intro fs2 hh; cases hh)] at h
    cases h
    exact Or.inl rfl
  }

/-- A file-loop entry that comes back unchanged and uncounted leaves the
corpus rewrite and both report counters exactly as if it were not there. -/
theorem standardize_append_inert (pre post : Corpus) (e : String × FileContent)
    (he : processEntry e = (e, false, 0)) :
    standardizeFiles (pre ++ e :: post) =
      standardizeFiles pre ++ e :: standardizeFiles post ∧
    filesProcessed (pre ++ e :: post) = filesProcessed pre + filesProcessed post ∧
    questionsUpdated (pre ++ e :: post) = questionsUpdated pre + questionsUpdated post := by
  unfold standardizeFiles filesProcessed questionsUpdated
  refine ⟨?_, ?_, ?_⟩ <;> simp [List.map_append, List.sum_append, he]

theorem processEntry_malformed (name : String) :
    processEntry (name, .malformed) = ((name, .malformed), false, 0) := by
  unfold processEntry
  split <;> rfl

theorem verifyEntry_malformed (st : VState) (e : String × FileContent)
    (he : e.2 = .malformed) : verifyEntry st e = st := by
  unfold verifyEntry
  split
  · rfl
  · rw [he]
    rfl

/-- A corpus in which every file failed to load is left untouched and
reported with zero counts and empty verification sets. -/
theorem standardize_all_malformed (c : Corpus) (h : ∀ e ∈ c, e.2 = .malformed) :
    standardizeFiles c = c ∧ filesProcessed c = 0 ∧ questionsUpdated c = 0 ∧
      verify_no_duplicates c = ⟨[], []⟩ := by
  have h1 : standardizeFiles c = c := by
    unfold standardizeFiles
    have : ∀ e ∈ c, (processEntry e).1 = e := by
      intro e he
      obtain ⟨name, content⟩ := e
      have : content = .malformed := h (name, content) he
      subst this
      rw [processEntry_malformed]
    calc c.map (fun e => (processEntry e).1) = c.map id := List.map_congr_left this
    _ = c := List.map_id c
  refine ⟨h1, ?_, ?_, ?_⟩
  · unfold filesProcessed
    have : ∀ e ∈ c, (if (processEntry e).2.1 then 1 else 0) = 0 := by
      intro e he
      obtain ⟨name, content⟩ := e
      have hc : content = .malformed := h (name, content) he
      subst hc
      rw [processEntry_malformed]
      rfl
    rw [List.map_congr_left this]
    simp
  · unfold questionsUpdated
    have : ∀ e ∈ c, (processEntry e).2.2 = 0 := by
      intro e he
      obtain ⟨name, content⟩ := e
      have hc : content = .malformed := h (name, content) he
      subst hc
      rw [processEntry_malformed]
    rw [List.map_congr_left this]
    simp
  · unfold verify_no_duplicates
    have hgen : ∀ (d : Corpus), (∀ e ∈ d, e.2 = .malformed) → ∀ st : VState,
        d.foldl verifyEntry st = st := by
      intro d
      induction d with
      | nil => intro _ st; rfl
      | cons e d ih =>
        intro hd st
        rw [List.foldl_cons, verifyEntry_malformed st e (hd e (by simp))]
        exact ih (fun e2 he2 => hd e2 (by simp [he2])) st
    exact hgen c h ⟨[], []⟩

/-! ### Claims -/

/-- Claim C1: in a successfully processed file, every record that is a dict
with non-empty string `section` and `subsection` ends up with `question_id`
equal to the resolved code, a hyphen, and its 1-based index within the file
zero-padded to three digits; the index is the record's raw position in the
file (`enumerate`), so skipped records still occupy their index. -/
theorem claim_C1_id_format (qs qs2 : List JValue) (n : Nat)
    (hfile : processFile (.parsed (.arr qs)) = ⟨.parsed (.arr qs2), true, n⟩)
    (k : Nat) (fs : List (String × JValue)) (hk : qs[k]? = some (.obj fs))
    (s t : String)
    (hs : (lookupKey fs "section").getD (.str "") = .str s) (hs1 : s ≠ "")
    (ht : (lookupKey fs "subsection").getD (.str "") = .str t) (ht1 : t ≠ "") :
    ∃ fs2, qs2[k]? = some (.obj fs2) ∧
      lookupKey fs2 "question_id" =
        some (.str (get_standardized_code s t ++ "-" ++ pad3 (k + 1))) := by
  cases hr : processRecords 0 qs with
  | error e => simp [processFile, hr] at hfile
  | ok r =>
    simp only [processFile, hr, FOut.mk.injEq, FileContent.parsed.injEq,
      JValue.arr.injEq] at hfile
    obtain ⟨h1, -, -⟩ := hfile
    obtain ⟨o, ho, hrec⟩ := processRecords_ok_get 0 qs r hr k (.obj fs) hk
    rw [Nat.zero_add] at ho
    rw [processQuestion_assign k fs s t hs hs1 ht ht1] at ho
    have ho2 := Except.ok.inj ho
    refine ⟨dictSet fs "question_id" (.str (newIdFor s t k)), ?_, ?_⟩
    · rw [← h1, hrec, ← ho2]
    · exact lookup_dictSet_self fs "question_id" (.str (newIdFor s t k))

/-- Claim C2: `get_standardized_code` returns the table code for every
(section, subsection) pair present in the taxonomy table, and for every pair
not in the table it returns, without raising, the first two characters of
the lowercased section, a hyphen, and the first four characters of the
lowercased subsection; in particular ("Foo", "Barbaz") resolves to
"fo-barb", and such a record at position 2 receives `question_id`
"fo-barb-002". -/
theorem claim_C2_code_resolution :
    (∀ s t c2, (lookupKey SUBSECTION_CODES s).bind (fun tbl => lookupKey tbl t) = some c2 →
      get_standardized_code s t = c2) ∧
    (∀ s t, (lookupKey SUBSECTION_CODES s).bind (fun tbl => lookupKey tbl t) = none →
      get_standardized_code s t = pyTake (pyLower s) 2 ++ "-" ++ pyTake (pyLower t) 4) ∧
    (∀ s t, resolveCode (.str s) (.str t) = .ok (get_standardized_code s t)) ∧
    get_standardized_code "Foo" "Barbaz" = "fo-barb" ∧
    processQuestion 1 (.obj [("section", .str "Foo"), ("subsection", .str "Barbaz")]) =
      .ok ⟨.obj [("section", .str "Foo"), ("subsection", .str "Barbaz"),
        ("question_id", .str "fo-barb-002")], true, false⟩ := by
  refine ⟨?_, ?_, fun s t => rfl, by decide, by decide⟩
  · intro s t c2 h
    cases hs : lookupKey SUBSECTION_CODES s with
    | none => rw [hs] at h; simp at h
    | some tbl =>
      rw [hs] at h
      simp only [Option.some_bind] at h
      unfold get_standardized_code
      rw [hs]
      simp [h]
  · intro s t h
    cases hs : lookupKey SUBSECTION_CODES s with
    | none =>
      unfold get_standardized_code
      rw [hs]
      simp [lookupKey]
    | some tbl =>
      rw [hs] at h
      simp only [Option.some_bind] at h
      unfold get_standardized_code
      rw [hs]
      simp [h]

/-- Claim C3: the standardization pass is idempotent on an unchanged corpus;
re-running it on its own output rewrites every file to exactly the same
content, so every record's `question_id` after the second run equals its
value after the first. -/
theorem claim_C3_idempotent (c : Corpus) :
    (standardize_question_ids (standardize_question_ids c).1).1 =
      (standardize_question_ids c).1 :=
  standardizeFiles_idem c

/-- Claim C4: a dict record whose `section` or `subsection` is missing or
falsy is left unmodified (its `question_id` is kept verbatim), draws the
per-record warning, and does not disturb the raw-index position numbering of
the records after it. -/
theorem claim_C4_skip_invariant (i : Nat) (fs : List (String × JValue))
    (h : truthy ((lookupKey fs "section").getD (.str "")) = false ∨
         truthy ((lookupKey fs "subsection").getD (.str "")) = false) :
    processQuestion i (.obj fs) = .ok ⟨.obj fs, false, true⟩ ∧
    (∀ qs r, processRecords (i + 1) qs = .ok r →
      processRecords i (.obj fs :: qs) =
        .ok ⟨.obj fs :: r.records, r.updated, (i + 1) :: r.warns⟩) := by
  refine ⟨processQuestion_skip i fs h, fun qs r hr => ?_⟩
  simp [processRecords, processQuestion_skip i fs h, hr]

/-- Claim C5 as stated is false: the verification pass does not scan every
record of every non-excluded file.  In this corpus the ID "x" occurs on two
records, but the record between them carries a non-empty list as its
`question_id`; the membership test on that unhashable value raises a
`TypeError`, the per-file handler stops the scan of the file, and "x" never
reaches the duplicates set. -/
theorem claim_C5_counterexample :
    occCorpus (.str "x")
      [("f.json", .parsed (.arr
        [.obj [("question_id", .str "x")],
         .obj [("question_id", .arr [.null])],
         .obj [("question_id", .str "x")]]))] = 2 ∧
    (.str "x") ∉ (verify_no_duplicates
      [("f.json", .parsed (.arr
        [.obj [("question_id", .str "x")],
         .obj [("question_id", .arr [.null])],
         .obj [("question_id", .str "x")]]))]).dups := by
  constructor
  · decide
  · decide

/-- Claim C5 (amended): provided no record of a non-excluded file carries a
truthy unhashable (list or dict) `question_id` value, every non-empty ID
string that occurs on two or more records across the non-excluded files of
the corpus is a member of the duplicates set. -/
theorem claim_C5_amended (c : Corpus) (s : String)
    (hok : corpusQidsOk c = true) (hs : s ≠ "")
    (h2 : 2 ≤ occCorpus (.str s) c) :
    .str s ∈ (verify_no_duplicates c).dups := by
  have hmem := (verifyFold_mem c ⟨[], []⟩ (.str s) hok).2
  unfold verify_no_duplicates
  rw [hmem]
  right
  refine ⟨by simp [truthy, hs], Or.inr h2⟩

/-- Claim C6: a record with non-empty string section and subsection has its
`question_id` overwritten with the newly computed ID unconditionally — the
change flag is exactly the comparison of the old value against the new ID,
so a no-op assignment still happens but contributes nothing to the file's
reported change count, while every differing assignment contributes one. -/
theorem claim_C6_overwrite_and_count (i : Nat) (fs : List (String × JValue)) (s t : String)
    (hs : (lookupKey fs "section").getD (.str "") = .str s) (hs1 : s ≠ "")
    (ht : (lookupKey fs "subsection").getD (.str "") = .str t) (ht1 : t ≠ "") :
    (∃ fs2, processQuestion i (.obj fs) =
        .ok ⟨.obj fs2,
          decide ((lookupKey fs "question_id").getD (.str "missing") ≠ .str (newIdFor s t i)),
          false⟩ ∧
      lookupKey fs2 "question_id" = some (.str (newIdFor s t i))) ∧
    (∀ qs r, processRecords 0 qs = .ok r → r.updated = countChanged 0 qs) :=
  ⟨⟨dictSet fs "question_id" (.str (newIdFor s t i)),
    processQuestion_assign i fs s t hs hs1 ht ht1,
    lookup_dictSet_self fs "question_id" (.str (newIdFor s t i))⟩,
   fun qs r hr => processRecords_ok_updated 0 qs r hr⟩

/-- Claim C7: a file whose load or parse fails is caught per file: it is
left as it is, counted in neither report counter, and the files before and
after it are processed exactly as they would be on their own; and even a
corpus in which every file failed still completes with the full report —
zero counts and empty verification sets. -/
theorem claim_C7_no_global_failure (pre post : Corpus) (name : String) :
    (standardize_question_ids (pre ++ (name, .malformed) :: post)).1 =
      (standardize_question_ids pre).1 ++ (name, .malformed) ::
        (standardize_question_ids post).1 ∧
    (standardize_question_ids (pre ++ (name, .malformed) :: post)).2.files_processed =
      (standardize_question_ids pre).2.files_processed +
        (standardize_question_ids post).2.files_processed ∧
    (standardize_question_ids (pre ++ (name, .malformed) :: post)).2.questions_updated =
      (standardize_question_ids pre).2.questions_updated +
        (standardize_question_ids post).2.questions_updated ∧
    (∀ c : Corpus, (∀ e ∈ c, e.2 = .malformed) →
      (standardize_question_ids c).1 = c ∧
      (standardize_question_ids c).2 = ⟨0, 0, ⟨[], []⟩⟩) := by
  obtain ⟨hm1, hm2, hm3⟩ := standardize_append_inert pre post (name, .malformed)
    (processEntry_malformed name)
  refine ⟨hm1, hm2, hm3, ?_⟩
  intro c hc
  obtain ⟨h1, h2, h3, h4⟩ := standardize_all_malformed c hc
  refine ⟨h1, ?_⟩
  show (⟨filesProcessed c, questionsUpdated c,
    verify_no_duplicates (standardizeFiles c)⟩ : Report) = ⟨0, 0, ⟨[], []⟩⟩
  rw [h1, h2, h3, h4]

/-- Claim C8: the in-place rewrite of a processed file changes only
`question_id` values: the file keeps its record count, every record is
either written back identical or is a dict whose fields other than
`question_id` all keep their original values. -/
theorem claim_C8_frame_property (qs qs2 : List JValue) (n : Nat)
    (hfile : processFile (.parsed (.arr qs)) = ⟨.parsed (.arr qs2), true, n⟩)
    (k : Nat) :
    qs2.length = qs.length ∧
    (qs2[k]? = qs[k]? ∨
      ∃ fs fs2, qs[k]? = some (.obj fs) ∧ qs2[k]? = some (.obj fs2) ∧
        ∀ key, key ≠ "question_id" → lookupKey fs2 key = lookupKey fs key) := by
  cases hr : processRecords 0 qs with
  | error e => simp [processFile, hr] at hfile
  | ok r =>
    simp only [processFile, hr, FOut.mk.injEq, FileContent.parsed.injEq,
      JValue.arr.injEq] at hfile
    obtain ⟨h1, -, -⟩ := hfile
    subst h1
    refine ⟨processRecords_ok_length 0 qs r hr, ?_⟩
    by_cases hk : k < qs.length
    · obtain ⟨q, hq⟩ : ∃ q, qs[k]? = some q := ⟨qs[k], List.getElem?_eq_getElem hk⟩
      obtain ⟨o, ho, hrec⟩ := processRecords_ok_get 0 qs r hr k q hq
      rcases processQuestion_frame _ _ _ ho with hsame | ⟨fs, fs2, hfs, hfs2, hframe⟩
      · left
        rw [hrec, hsame, hq]
      · right
        exact ⟨fs, fs2, by rw [hq, hfs], by rw [hrec, hfs2], hframe⟩
    · left
      have e1 : qs[k]? = none := by
        rw [List.getElem?_eq_none_iff]
        omega
      have e2 : r.records[k]? = none := by
        rw [List.getElem?_eq_none_iff, processRecords_ok_length 0 qs r hr]
        omega
      rw [e1, e2]

/-- Claim C9: an exception while a file's records are being reassigned (for
example from a truthy non-string section) is caught by the per-file handler
before the write step: the file's on-disk content stays exactly as it was,
it is not counted as processed, and the surrounding files are processed as
if it were absent. -/
theorem claim_C9_file_atomicity (qs : List JValue)
    (h : processRecords 0 qs = .error ())
    (pre post : Corpus) (name : String) (hn : name ∉ EXCLUDED_FILES) :
    processFile (.parsed (.arr qs)) = ⟨.parsed (.arr qs), false, 0⟩ ∧
    (standardize_question_ids (pre ++ (name, .parsed (.arr qs)) :: post)).1 =
      (standardize_question_ids pre).1 ++ (name, .parsed (.arr qs)) ::
        (standardize_question_ids post).1 ∧
    (standardize_question_ids (pre ++ (name, .parsed (.arr qs)) :: post)).2.files_processed =
      (standardize_question_ids pre).2.files_processed +
        (standardize_question_ids post).2.files_processed := by
  have hf : processFile (.parsed (.arr qs)) = ⟨.parsed (.arr qs), false, 0⟩ := by
    simp [processFile, h]
  have hpe : processEntry (name, .parsed (.arr qs)) = ((name, .parsed (.arr qs)), false, 0) := by
    simp [processEntry, hn, hf]
  obtain ⟨hm1, hm2, hm3⟩ := standardize_append_inert pre post _ hpe
  exact ⟨hf, hm1, hm2⟩

/-- Claim C10: a record whose `question_id` is missing, `None` or an empty
string is excluded from verification entirely — its scan step leaves both
sets untouched, and consequently only truthy values ever appear among the
distinct IDs or the duplicates, so records lacking an ID are never reported
as a collision. -/
theorem claim_C10_absent_ids_ignored (c : Corpus) (st : VState)
    (fs : List (String × JValue)) :
    (∀ v, v ∈ (verify_no_duplicates c).all_ids → truthy v = true) ∧
    (∀ v, v ∈ (verify_no_duplicates c).dups → truthy v = true) ∧
    (truthy ((lookupKey fs "question_id").getD .null) = false →
      scanQuestion st (.obj fs) = .ok st) := by
  obtain ⟨h1, h2⟩ := verify_allTruthy c
  refine ⟨fun v hv => h1 v hv, fun v hv => h2 v hv, fun hf => ?_⟩
  simp [scanQuestion, hf]

/-! ### Witnesses -/

/-- Witness for C1: the taxonomy pair ("Logical Reasoning", "Strengthen") at
position 5 of a processed file receives `question_id` "lr-str-005". -/
theorem claim_C1_witness :
    ∃ fs2,
      ([.obj [("section", .str "Foo"), ("subsection", .str "Barbaz"),
          ("question_id", .str "fo-barb-001")],
        .obj [("section", .str "Foo"), ("subsection", .str "Barbaz"),
          ("question_id", .str "fo-barb-002")],
        .obj [("section", .str "Foo"), ("subsection", .str "Barbaz"),
          ("question_id", .str "fo-barb-003")],
        .obj [("section", .str "Foo"), ("subsection", .str "Barbaz"),
          ("question_id", .str "fo-barb-004")],
        .obj [("section", .str "Logical Reasoning"), ("subsection", .str "Strengthen"),
          ("question_id", .str "lr-str-005")]] : List JValue)[4]? = some (.obj fs2) ∧
      lookupKey fs2 "question_id" = some (.str "lr-str-005") :=
  claim_C1_id_format
    [.obj [("section", .str "Foo"), ("subsection", .str "Barbaz")],
     .obj [("section", .str "Foo"), ("subsection", .str "Barbaz")],
     .obj [("section", .str "Foo"), ("subsection", .str "Barbaz")],
     .obj [("section", .str "Foo"), ("subsection", .str "Barbaz")],
     .obj [("section", .str "Logical Reasoning"), ("subsection", .str "Strengthen"),
       ("question_id", .str "old-1")]]
    [.obj [("section", .str "Foo"), ("subsection", .str "Barbaz"),
        ("question_id", .str "fo-barb-001")],
     .obj [("section", .str "Foo"), ("subsection", .str "Barbaz"),
        ("question_id", .str "fo-barb-002")],
     .obj [("section", .str "Foo"), ("subsection", .str "Barbaz"),
        ("question_id", .str "fo-barb-003")],
     .obj [("section", .str "Foo"), ("subsection", .str "Barbaz"),
        ("question_id", .str "fo-barb-004")],
     .obj [("section", .str "Logical Reasoning"), ("subsection", .str "Strengthen"),
        ("question_id", .str "lr-str-005")]]
    5 (by decide) 4
    [("section", .str "Logical Reasoning"), ("subsection", .str "Strengthen"),
     ("question_id", .str "old-1")]
    (by decide) "Logical Reasoning" "Strengthen" (by decide) (by decide) (by decide) (by decide)

/-- Witness for C2: a table pair resolves to its table code, and a pair with
the section in the table but an unknown subsection falls back to the
truncated lowercase derivation. -/
theorem claim_C2_witness :
    get_standardized_code "Logical Reasoning" "Weaken" = "lr-wk" ∧
    get_standardized_code "Reading Comprehension" "Tricky Subsection" =
      pyTake (pyLower "Reading Comprehension") 2 ++ "-" ++
        pyTake (pyLower "Tricky Subsection") 4 :=
  ⟨claim_C2_code_resolution.1 "Logical Reasoning" "Weaken" "lr-wk" (by decide),
   claim_C2_code_resolution.2.1 "Reading Comprehension" "Tricky Subsection" (by decide)⟩

/-- Witness for C4: a record with no section keeps its `question_id`
"keep-me" verbatim and is warned about, while the record after it is still
numbered by its raw index (position 2, hence "fo-barb-002"). -/
theorem claim_C4_witness :
    processQuestion 0 (.obj [("question_id", .str "keep-me")]) =
      .ok ⟨.obj [("question_id", .str "keep-me")], false, true⟩ ∧
    processRecords 0
        [.obj [("question_id", .str "keep-me")],
         .obj [("section", .str "Foo"), ("subsection", .str "Barbaz")]] =
      .ok ⟨[.obj [("question_id", .str "keep-me")],
            .obj [("section", .str "Foo"), ("subsection", .str "Barbaz"),
              ("question_id", .str "fo-barb-002")]], 1, [1]⟩ := by
  have h := claim_C4_skip_invariant 0 [("question_id", .str "keep-me")] (by decide)
  exact ⟨h.1,
    h.2 [.obj [("section", .str "Foo"), ("subsection", .str "Barbaz")]]
      ⟨[.obj [("section", .str "Foo"), ("subsection", .str "Barbaz"),
          ("question_id", .str "fo-barb-002")]], 1, []⟩ (by decide)⟩

/-- Witness for C5 (amended): two files whose fallback codes coincide and
which each have a record at position 1 produce the collision "fo-barb-001",
and the duplicates set contains that exact ID. -/
theorem claim_C5_witness :
    .str "fo-barb-001" ∈ (verify_no_duplicates
      [("a.json", .parsed (.arr [.obj [("section", .str "Foo"),
          ("subsection", .str "Barbaz"), ("question_id", .str "fo-barb-001")]])),
       ("b.json", .parsed (.arr [.obj [("section", .str "Four"),
          ("subsection", .str "Barbarian"), ("question_id", .str "fo-barb-001")]]))]).dups :=
  claim_C5_amended
    [("a.json", .parsed (.arr [.obj [("section", .str "Foo"),
        ("subsection", .str "Barbaz"), ("question_id", .str "fo-barb-001")]])),
     ("b.json", .parsed (.arr [.obj [("section", .str "Four"),
        ("subsection", .str "Barbarian"), ("question_id", .str "fo-barb-001")]]))]
    "fo-barb-001" (by decide) (by decide) (by decide)

/-- Witness for C6: a record whose old `question_id` already equals the
newly computed ID is still overwritten, and the no-op assignment is not
counted as a change. -/
theorem claim_C6_witness :
    ∃ fs2, processQuestion 0 (.obj [("section", .str "Foo"), ("subsection", .str "Barbaz"),
        ("question_id", .str "fo-barb-001")]) = .ok ⟨.obj fs2, false, false⟩ ∧
      lookupKey fs2 "question_id" = some (.str "fo-barb-001") :=
  (claim_C6_overwrite_and_count 0
    [("section", .str "Foo"), ("subsection", .str "Barbaz"),
     ("question_id", .str "fo-barb-001")]
    "Foo" "Barbaz" (by decide) (by decide) (by decide) (by decide)).1

/-- Witness for C7: a malformed file between processed files is skipped in
place, and a corpus consisting only of a malformed file still yields the
full zero report. -/
theorem claim_C7_witness :
    (standardize_question_ids
        ([("g.json", .parsed (.arr []))] ++ ("bad.json", .malformed) :: [])).1 =
      (standardize_question_ids [("g.json", .parsed (.arr []))]).1 ++
        ("bad.json", .malformed) :: (standardize_question_ids []).1 ∧
    (standardize_question_ids [("bad.json", .malformed)]).1 = [("bad.json", .malformed)] ∧
    (standardize_question_ids [("bad.json", .malformed)]).2 = ⟨0, 0, ⟨[], []⟩⟩ := by
  have h := claim_C7_no_global_failure [("g.json", .parsed (.arr []))] [] "bad.json"
  have h2 := h.2.2.2 [("bad.json", .malformed)] (by decide)
  exact ⟨h.1, h2.1, h2.2⟩

/-- Witness for C8: a processed file keeps its record count, and the dict
record at index 0 keeps every field other than `question_id` (here
`section`, `subsection` and `difficulty`) at its original value. -/
theorem claim_C8_witness :
    ([.obj [("section", .str "Foo"), ("subsection", .str "Barbaz"),
        ("difficulty", .num 3), ("question_id", .str "fo-barb-001")],
      .str "stray"] : List JValue).length =
      ([.obj [("section", .str "Foo"), ("subsection", .str "Barbaz"),
          ("difficulty", .num 3)], .str "stray"] : List JValue).length ∧
    (([.obj [("section", .str "Foo"), ("subsection", .str "Barbaz"),
        ("difficulty", .num 3), ("question_id", .str "fo-barb-001")],
       .str "stray"] : List JValue)[0]? =
      ([.obj [("section", .str "Foo"), ("subsection", .str "Barbaz"),
          ("difficulty", .num 3)], .str "stray"] : List JValue)[0]? ∨
      ∃ fs fs2,
        ([.obj [("section", .str "Foo"), ("subsection", .str "Barbaz"),
            ("difficulty", .num 3)], .str "stray"] : List JValue)[0]? = some (.obj fs) ∧
        ([.obj [("section", .str "Foo"), ("subsection", .str "Barbaz"),
            ("difficulty", .num 3), ("question_id", .str "fo-barb-001")],
          .str "stray"] : List JValue)[0]? = some (.obj fs2) ∧
        ∀ key, key ≠ "question_id" → lookupKey fs2 key = lookupKey fs key) :=
  claim_C8_frame_property
    [.obj [("section", .str "Foo"), ("subsection", .str "Barbaz"), ("difficulty", .num 3)],
     .str "stray"]
    [.obj [("section", .str "Foo"), ("subsection", .str "Barbaz"),
        ("difficulty", .num 3), ("question_id", .str "fo-barb-001")],
     .str "stray"]
    1 (by decide) 0

/-- Witness for C9: a record whose `section` is the number 5 (truthy but not
a string) makes the record loop raise; the file is written back untouched
with its original `question_id` "orig", and the neighbouring file is still
processed. -/
theorem claim_C9_witness :
    processFile (.parsed (.arr [.obj [("section", .num 5), ("subsection", .str "x"),
        ("question_id", .str "orig")]])) =
      ⟨.parsed (.arr [.obj [("section", .num 5), ("subsection", .str "x"),
        ("question_id", .str "orig")]]), false, 0⟩ ∧
    (standardize_question_ids
        ([("a.json", .parsed (.arr []))] ++
          ("c.json", .parsed (.arr [.obj [("section", .num 5), ("subsection", .str "x"),
            ("question_id", .str "orig")]])) :: [])).1 =
      (standardize_question_ids [("a.json", .parsed (.arr []))]).1 ++
        ("c.json", .parsed (.arr [.obj [("section", .num 5), ("subsection", .str "x"),
          ("question_id", .str "orig")]])) :: (standardize_question_ids []).1 ∧
    (standardize_question_ids
        ([("a.json", .parsed (.arr []))] ++
          ("c.json", .parsed (.arr [.obj [("section", .num 5), ("subsection", .str "x"),
            ("question_id", .str "orig")]])) :: [])).2.files_processed =
      (standardize_question_ids [("a.json", .parsed (.arr []))]).2.files_processed +
        (standardize_question_ids []).2.files_processed :=
  claim_C9_file_atomicity
    [.obj [("section", .num 5), ("subsection", .str "x"), ("question_id", .str "orig")]]
    (by decide) [("a.json", .parsed (.arr []))] [] "c.json" (by decide)

/-- Witness for C10: a collected truthy ID is indeed truthy, and a record
with an empty-string `question_id` leaves the verification state untouched. -/
theorem claim_C10_witness :
    truthy (.str "a") = true ∧
    scanQuestion ⟨[], []⟩ (.obj [("question_id", .str "")]) = .ok ⟨[], []⟩ := by
  have h := claim_C10_absent_ids_ignored
    [("f.json", .parsed (.arr [.obj [("question_id", .str "a")]]))] ⟨[], []⟩
    [("question_id", .str "")]
  exact ⟨h.1 (.str "a") (by decide), h.2.2 (by decide)⟩

end StandardizeIds
